import Mathlib

/-!
Verification of the Tasqueue redis results store (`results/redis/results.go`).

The Go file wraps a redis client.  We shallowly embed the slice of redis
that the file touches: a keyed store whose values are either byte strings
(with an optional absolute expiry deadline) or sorted sets of
member/score pairs, together with the commands the Go code issues
(SET, GET, DEL, ZADD, ZREM, ZREVRANGEBYSCORE, ZREMRANGEBYSCORE) and a
command pipeline.  Timestamps and scores are modelled as integers
(nanoseconds, `time.Now().UnixNano()`); durations as naturals, with `0`
meaning "disabled" exactly as in the Go options.
-/

namespace Tasqueue

/-- Constant `resultPrefix = "tq:res:"` from the Go source. -/
def resultPfx : String := "tq:res:"

/-- Constant `success = "success"` from the Go source. -/
def success : String := "success"

/-- Constant `failed = "failed"` from the Go source. -/
def failed : String := "failed"

/-- A value held at a redis key: either a byte string written by `SET`
(with the absolute expiry deadline, `none` when no expiry was given), or
a sorted set of member/score pairs. -/
inductive RedisValue where
  | str (b : List Nat) (expireAt : Option Int)
  | zset (zs : List (String × Int))
deriving DecidableEq, Repr

/-- The redis commands issued by `results.go`.  A `set` carries the
relative expiry duration (0 = none); the absolute deadline is computed
when the command executes, as redis does.  `zrem` is variadic in
redis, so it carries the list of members to remove. -/
inductive RedisCmd where
  | set (key : String) (b : List Nat) (expiry : Nat)
  | del (key : String)
  | zadd (key : String) (score : Int) (member : String)
  | zrem (key : String) (members : List String)
  | zremrange (key : String) (min max : Int)
deriving DecidableEq, Repr

/-- The redis keyspace: an association list from keys to values. -/
abbrev Store := List (String × RedisValue)

/-- Look a key up in the store. -/
def findKey : Store → String → Option RedisValue
  | [], _ => none
  | (k, v) :: rest, key => if key = k then some v else findKey rest key

/-- Remove a key from the store (redis `DEL`). -/
def delKey (st : Store) (k : String) : Store :=
  st.filter (fun p => p.1 ≠ k)

/-- Bind a key to a value, replacing any previous binding. -/
def setKey (st : Store) (k : String) (v : RedisValue) : Store :=
  (k, v) :: delKey st k

/-- Redis `ZADD`: upsert by member identity — any old entry for the
member is dropped and the member is stored with the new score. -/
def zaddList (zs : List (String × Int)) (m : String) (s : Int) : List (String × Int) :=
  zs.filter (fun p => p.1 ≠ m) ++ [(m, s)]

/-- Entries of a sorted set whose score lies in `[min, max]`. -/
def zrangeSelect (zs : List (String × Int)) (min max : Int) : List (String × Int) :=
  zs.filter (fun p => min ≤ p.2 ∧ p.2 ≤ max)

/-- Comparator for `ZREVRANGEBYSCORE` output: higher scores first,
ties broken by reverse lexicographic member order. -/
def zrevLE (p q : String × Int) : Bool :=
  q.2 < p.2 || (p.2 == q.2 && !(p.1 < q.1))

/-- The member/score pairs a `ZREVRANGEBYSCORE key min max` call walks,
in output order: scores in `[min, max]`, descending. -/
def zrevPairs (zs : List (String × Int)) (min max : Int) : List (String × Int) :=
  (zrangeSelect zs min max).mergeSort zrevLE

/-- Redis `ZREVRANGEBYSCORE`: the members of `zrevPairs`. -/
def zrevList (zs : List (String × Int)) (min max : Int) : List String :=
  (zrevPairs zs min max).map Prod.fst

/-- Execute one redis command against the store at time `now`.
Type-mismatched commands (e.g. `ZADD` on a string key) error in redis
and leave the store unchanged. -/
def execCmd (now : Int) (st : Store) : RedisCmd → Store
  | .set k b ex =>
      setKey st k (.str b (if ex = 0 then none else some (now + (ex : Int))))
  | .del k => delKey st k
  | .zadd k s m =>
      match findKey st k with
      | some (.zset zs) => setKey st k (.zset (zaddList zs m s))
      | some (.str _ _) => st
      | none => setKey st k (.zset (zaddList [] m s))
  | .zrem k ms =>
      match findKey st k with
      | some (.zset zs) => setKey st k (.zset (zs.filter (fun p => p.1 ∉ ms)))
      | some (.str _ _) => st
      | none => st
  | .zremrange k mn mx =>
      match findKey st k with
      | some (.zset zs) => setKey st k (.zset (zs.filter (fun p => ¬(mn ≤ p.2 ∧ p.2 ≤ mx))))
      | some (.str _ _) => st
      | none => st

/-- Execute a batch of commands in order as one round trip. -/
def execCmds (now : Int) (st : Store) (cmds : List RedisCmd) : Store :=
  cmds.foldl (execCmd now) st

/-- Errors a redis read can signal: the `redis.Nil` not-found sentinel,
or a wrong-type error for a key holding the other kind of value. -/
inductive RedisErr where
  | nil
  | wrongType
deriving DecidableEq, Repr

/-- The `redis.Nil` sentinel, as returned by the Go `NilError` method. -/
def NilError : RedisErr := .nil

/-- Redis `GET` at time `now`: the payload when the key holds a live
string, `redis.Nil` when the key is absent or expired, a wrong-type
error when it holds a sorted set. -/
def connGet (st : Store) (now : Int) (k : String) : Except RedisErr (List Nat) :=
  match findKey st k with
  | none => .error .nil
  | some (.str b dl) =>
      match dl with
      | none => .ok b
      | some d => if d ≤ now then .error .nil else .ok b
  | some (.zset _) => .error .wrongType

/-- Redis `ZREVRANGEBYSCORE` against a store key: empty for an absent
key, wrong-type error for a string key. -/
def connZRevRange (st : Store) (k : String) (min max : Int) : Except RedisErr (List String) :=
  match findKey st k with
  | none => .ok []
  | some (.zset zs) => .ok (zrevList zs min max)
  | some (.str _ _) => .error .wrongType

/-- The key for `id`, absent or expired at time `now` (the condition
under which redis `GET` returns `redis.Nil`). -/
def absentOrExpired (st : Store) (now : Int) (k : String) : Prop :=
  match findKey st k with
  | none => True
  | some (.str _ none) => False
  | some (.str _ (some d)) => d ≤ now
  | some (.zset _) => False

instance (st : Store) (now : Int) (k : String) : Decidable (absentOrExpired st now k) := by
  unfold absentOrExpired
  match findKey st k with
  | none => exact inferInstanceAs (Decidable True)
  | some (.str _ none) => exact inferInstanceAs (Decidable False)
  | some (.str _ (some d)) => exact inferInstanceAs (Decidable (d ≤ now))
  | some (.zset _) => exact inferInstanceAs (Decidable False)

/-- The configuration options of the Go `Options` struct.  Durations
are nanosecond counts; `0` disables the corresponding feature exactly
as in the Go code (`Expiry` 0 = no key expiry, `MetaExpiry` 0 = no
purger, `PipePeriod` 0 = no batching). -/
structure Options where
  Addrs : List String := []
  Password : String := ""
  DB : Int := 0
  DialTimeout : Nat := 0
  ReadTimeout : Nat := 0
  WriteTimeout : Nat := 0
  IdleTimeout : Nat := 0
  Expiry : Nat := 0
  MetaExpiry : Nat := 0
  MinIdleConns : Nat := 0
  PipePeriod : Nat := 0
deriving DecidableEq, Repr

/-- The mutable state a `Results` value acts on: the remote store and
the shared batching pipeline's queue of not-yet-executed commands
(meaningful only when `PipePeriod` is non-zero). -/
structure RState where
  store : Store
  pipe : List RedisCmd
deriving DecidableEq, Repr

/-- From `New`: the metadata purger goroutine is started iff
`MetaExpiry` is non-zero. -/
def purgerStarted (o : Options) : Bool := o.MetaExpiry ≠ 0

/-- From `New`: the pipe flusher goroutine is started iff `PipePeriod`
is non-zero. -/
def flusherStarted (o : Options) : Bool := o.PipePeriod ≠ 0

/-- From `expireMeta`: the purger's ticker period is the `MetaExpiry`
retention window itself. -/
def purgerPeriod (o : Options) : Nat := o.MetaExpiry

/-- Go `Set`: write the result record for `id` under the result key
with the configured expiry; enqueued into the shared pipe when batching
is enabled, executed immediately otherwise. -/
def RSet (o : Options) (now : Int) (r : RState) (id : String) (b : List Nat) : RState :=
  if o.PipePeriod ≠ 0 then
    { r with pipe := r.pipe ++ [.set ( resultPfx ++ id) b o.Expiry] }
  else
    { r with store := execCmd now r.store (.set ( resultPfx ++ id) b o.Expiry) }

/-- Go `Get`: read the result record for `id`; the underlying error, if
any, is returned to the caller unchanged. -/
def RGet (r : RState) (now : Int) (id : String) : Except RedisErr (List Nat) :=
  connGet r.store now ( resultPfx ++ id)

/-- Go `SetSuccess`: `ZADD` of `id` into the success index with the
current nanosecond time as score; enqueued when batching is enabled. -/
def SetSuccess (o : Options) (now : Int) (r : RState) (id : String) : RState :=
  if o.PipePeriod ≠ 0 then
    { r with pipe := r.pipe ++ [.zadd ( resultPfx ++ success) now id] }
  else
    { r with store := execCmd now r.store (.zadd ( resultPfx ++ success) now id) }

/-- Go `SetFailed`: `ZADD` of `id` into the failed index with the
current nanosecond time as score; enqueued when batching is enabled. -/
def SetFailed (o : Options) (now : Int) (r : RState) (id : String) : RState :=
  if o.PipePeriod ≠ 0 then
    { r with pipe := r.pipe ++ [.zadd ( resultPfx ++ failed) now id] }
  else
    { r with store := execCmd now r.store (.zadd ( resultPfx ++ failed) now id) }

/-- Go `GetSuccess`: `ZREVRANGEBYSCORE` on the success index with
`Min = "0"` and `Max` the current nanosecond time. -/
def GetSuccess (r : RState) (now : Int) : Except RedisErr (List String) :=
  connZRevRange r.store ( resultPfx ++ success) 0 now

/-- Go `GetFailed`: `ZREVRANGEBYSCORE` on the failed index with
`Min = "0"` and `Max` the current nanosecond time. -/
def GetFailed (r : RState) (now : Int) : Except RedisErr (List String) :=
  connZRevRange r.store ( resultPfx ++ failed) 0 now

/-- The three sub-operations of `DeleteJob`, in the order the Go code
queues them on its fresh pipeline.  The Go calls are
`ZRem(ctx, key, 1, id)`: `ZRem` is variadic over members, so the
integer `1` is serialized and removed as the member `"1"` alongside
`id`. -/
def deleteJobCmds (id : String) : List RedisCmd :=
  [ .zrem ( resultPfx ++ success) ["1", id],
    .zrem ( resultPfx ++ failed) ["1", id],
    .del ( resultPfx ++ id) ]

/-- Go `DeleteJob`: builds a fresh pipeline on the connection (never
the shared batching pipe), queues the two `ZREM`s and the `DEL`, and
executes it immediately as one round trip, in every configuration. -/
def DeleteJob (_o : Options) (now : Int) (r : RState) (id : String) : RState :=
  { r with store := execCmds now r.store (deleteJobCmds id) }

/-- The commands one `expireMeta` tick issues at time `now`: remove all
entries with score in `[0, now - ttl]`, failed index first, then the
success index. -/
def purgeCmds (ttl : Nat) (now : Int) : List RedisCmd :=
  [ .zremrange ( resultPfx ++ failed) 0 (now - (ttl : Int)),
    .zremrange ( resultPfx ++ success) 0 (now - (ttl : Int)) ]

/-- One tick of `expireMeta`: the removals go through the shared
batching pipe when batching is enabled, directly otherwise. -/
def purgeTick (o : Options) (now : Int) (r : RState) : RState :=
  if o.PipePeriod ≠ 0 then
    { r with pipe := r.pipe ++ purgeCmds o.MetaExpiry now }
  else
    { r with store := execCmds now r.store (purgeCmds o.MetaExpiry now) }

/-- One tick of `execPipe`: if the shared pipe is empty the tick does
nothing; otherwise the whole queue is executed as one round trip and
cleared.  `ok` is the round trip's outcome: on failure the batch's
effects are not applied, the error is only logged, and the commands are
not re-queued (go-redis clears the pipeline on `Exec` either way). -/
def flushTick (now : Int) (ok : Bool) (r : RState) : RState :=
  if r.pipe.isEmpty then r
  else { store := if ok then execCmds now r.store r.pipe else r.store, pipe := [] }

/-- The shutdown drain of `execPipe`: `Exec` is called unconditionally,
whatever the queue length, and the queue is cleared. -/
def drainPipe (now : Int) (ok : Bool) (r : RState) : RState :=
  { store := if ok then execCmds now r.store r.pipe else r.store, pipe := [] }

/-- An event the `execPipe` loop can observe: a ticker tick or the
context-cancellation signal, each with the round trip outcome `ok` and
the time at which it fires. -/
inductive FlushEvent where
  | tick (now : Int) (ok : Bool)
  | cancel (now : Int) (ok : Bool)
deriving DecidableEq, Repr

/-- The `execPipe` loop over a sequence of events: ticks flush, the
first cancellation drains once and terminates the loop, so later
events are never processed. -/
def runFlusher (r : RState) : List FlushEvent → RState
  | [] => r
  | .cancel now ok :: _ => drainPipe now ok r
  | .tick now ok :: rest => runFlusher (flushTick now ok r) rest

/-- The success index as stored: the sorted set at key
`resultPrefix + success`, empty if the key is absent or holds a
string. -/
def successIndex (st : Store) : List (String × Int) :=
  match findKey st ( resultPfx ++ success) with
  | some (.zset zs) => zs
  | _ => []

/-- The failed index as stored: the sorted set at key
`resultPrefix + failed`, empty if the key is absent or holds a
string. -/
def failedIndex (st : Store) : List (String × Int) :=
  match findKey st ( resultPfx ++ failed) with
  | some (.zset zs) => zs
  | _ => []

/-- A store key is fit for sorted-set commands: absent or holding a
sorted set (not a string). -/
def zsetTyped (st : Store) (k : String) : Prop :=
  match findKey st k with
  | none => True
  | some (.zset _) => True
  | some (.str _ _) => False

instance (st : Store) (k : String) : Decidable (zsetTyped st k) := by
  unfold zsetTyped
  match findKey st k with
  | none => exact inferInstanceAs (Decidable True)
  | some (.zset _) => exact inferInstanceAs (Decidable True)
  | some (.str _ _) => exact inferInstanceAs (Decidable False)

/-! Helper lemmas about the store model. -/

theorem string_append_cancel {s a b : String} (h : s ++ a = s ++ b) : a = b := by
  apply String.ext
  have h2 : (s ++ a).data = (s ++ b).data := by rw [h]
  rw [String.data_append, String.data_append] at h2
  exact List.append_cancel_left h2

theorem key_ne_of_id_ne {a b : String} (h : a ≠ b) : resultPfx ++ a ≠ resultPfx ++ b :=
  fun hk => h (string_append_cancel hk)

theorem findKey_delKey (st : Store) (k k' : String) :
    findKey (delKey st k) k' = if k' = k then none else findKey st k' := by
  induction st with
  | nil => simp [delKey, findKey]
  | cons p rest ih =>
    obtain ⟨pk, pv⟩ := p
    by_cases hpk : pk = k
    · subst hpk
      by_cases hk' : k' = pk
      · subst hk'
        simp [delKey, findKey] at ih ⊢
        simpa [delKey] using ih
      · simp [delKey, findKey, hk'] at ih ⊢
        simpa [delKey, hk'] using ih
    · by_cases hk' : k' = pk
      · subst hk'
        have : ¬ (k' = k) := hpk
        simp [delKey, findKey, hpk, this]
      · simp [delKey, findKey, hpk, hk'] at ih ⊢
        simpa [delKey, hk'] using ih

theorem findKey_setKey (st : Store) (k k' : String) (v : RedisValue) :
    findKey (setKey st k v) k' = if k' = k then some v else findKey st k' := by
  by_cases h : k' = k
  · simp [setKey, findKey, h]
  · simp [setKey, findKey, h, findKey_delKey]

/-- Executing a command whose key differs from `k` leaves the binding
at `k` unchanged. -/
theorem findKey_execCmd_ne (now : Int) (st : Store) (c : RedisCmd) (k : String)
    (hset : ∀ b ex, c ≠ .set k b ex) (hdel : c ≠ .del k)
    (hzadd : ∀ s m, c ≠ .zadd k s m) (hzrem : ∀ ms, c ≠ .zrem k ms)
    (hzrr : ∀ mn mx, c ≠ .zremrange k mn mx) :
    findKey (execCmd now st c) k = findKey st k := by
  cases c with
  | set k' b ex =>
    have hk : k ≠ k' := fun h => hset b ex (by rw [h])
    simp [execCmd, findKey_setKey, hk]
  | del k' =>
    have hk : k ≠ k' := fun h => hdel (by rw [h])
    simp [execCmd, findKey_delKey, hk]
  | zadd k' s m =>
    have hk : k ≠ k' := fun h => hzadd s m (by rw [h])
    cases h : findKey st k' with
    | none => simp [execCmd, h, findKey_setKey, hk]
    | some v =>
      cases v with
      | zset zs => simp [execCmd, h, findKey_setKey, hk]
      | str b d => simp [execCmd, h]
  | zrem k' ms =>
    have hk : k ≠ k' := fun h => hzrem ms (by rw [h])
    cases h : findKey st k' with
    | none => simp [execCmd, h]
    | some v =>
      cases v with
      | zset zs => simp [execCmd, h, findKey_setKey, hk]
      | str b d => simp [execCmd, h]
  | zremrange k' mn mx =>
    have hk : k ≠ k' := fun h => hzrr mn mx (by rw [h])
    cases h : findKey st k' with
    | none => simp [execCmd, h]
    | some v =>
      cases v with
      | zset zs => simp [execCmd, h, findKey_setKey, hk]
      | str b d => simp [execCmd, h]

/-! Claim theorems. -/

/-- C2: for every job identifier and in every batching configuration,
`DeleteJob` executes its three sub-operations (ZREM from the success
index, ZREM from the failed index, DEL of the result record) in one
immediate batched round trip on a fresh pipeline, never touching the
shared batching queue, and its behaviour does not depend on
`PipePeriod`. -/
theorem deleteJob_immediate_single_batch (o : Options) (now : Int) (r : RState) (id : String) :
    (DeleteJob o now r id).pipe = r.pipe ∧
    (DeleteJob o now r id).store = execCmds now r.store (deleteJobCmds id) ∧
    deleteJobCmds id =
      [.zrem ( resultPfx ++ success) ["1", id], .zrem ( resultPfx ++ failed) ["1", id],
        .del ( resultPfx ++ id)] ∧
    ∀ p : Nat, DeleteJob { o with PipePeriod := p } now r id = DeleteJob o now r id :=
  ⟨rfl, rfl, rfl, fun _ => rfl⟩

/-- C9: when the pipe flusher receives the cancellation signal it
performs exactly one final drain-and-execute of the whole remaining
queue, whatever its size, then terminates: the events after the
cancellation are never processed. -/
theorem flusher_cancel_drains_then_stops (r : RState) (now : Int) (ok : Bool)
    (rest : List FlushEvent) :
    runFlusher r (.cancel now ok :: rest) = drainPipe now ok r ∧
    runFlusher r (.cancel now ok :: rest) = runFlusher r [.cancel now ok] ∧
    (drainPipe now ok r).pipe = [] ∧
    (ok = true → (drainPipe now ok r).store = execCmds now r.store r.pipe) :=
  ⟨rfl, rfl, rfl, fun h => by simp [drainPipe, h]⟩

/-- Witness for C9 at a concrete one-command queue. -/
theorem flusher_cancel_drains_then_stops_witness :
    runFlusher ⟨[], [.del "k"]⟩ [.cancel 3 true, .tick 4 true] = drainPipe 3 true ⟨[], [.del "k"]⟩ ∧
    (drainPipe 3 true (⟨[], [.del "k"]⟩ : RState)).store =
      execCmds 3 ([] : Store) [.del "k"] :=
  ⟨(flusher_cancel_drains_then_stops ⟨[], [.del "k"]⟩ 3 true [.tick 4 true]).1,
    (flusher_cancel_drains_then_stops ⟨[], [.del "k"]⟩ 3 true [.tick 4 true]).2.2.2 rfl⟩

/-- C8: a flusher tick with an empty queue is a no-op (no command
reaches the store); with a non-empty queue the whole batch is executed
as one round trip and the queue is cleared, and on a failed round trip
the error is only logged: the commands are neither applied nor
re-queued. -/
theorem flushTick_spec (now : Int) (ok : Bool) (r : RState) :
    (r.pipe = [] → flushTick now ok r = r) ∧
    (r.pipe ≠ [] →
      (flushTick now ok r).pipe = [] ∧
      (flushTick now true r).store = execCmds now r.store r.pipe ∧
      (flushTick now false r).store = r.store) := by
  constructor
  · intro h
    simp [flushTick, h]
  · intro h
    have he : r.pipe.isEmpty = false := by
      cases hp : r.pipe with
      | nil => exact absurd hp h
      | cons a l => rfl
    refine ⟨?_, ?_, ?_⟩ <;> simp [flushTick, he]

/-- Witness for C8: the empty-queue tick at a concrete state, and the
non-empty-queue tick at another. -/
theorem flushTick_spec_witness :
    flushTick 0 true ⟨[("k", .str [1] none)], []⟩ = ⟨[("k", .str [1] none)], []⟩ ∧
    (flushTick 0 true (⟨[], [.del "k"]⟩ : RState)).pipe = [] ∧
    (flushTick 0 false (⟨[], [.del "k"]⟩ : RState)).store = [] :=
  ⟨(flushTick_spec 0 true ⟨[("k", .str [1] none)], []⟩).1 rfl,
    ((flushTick_spec 0 true ⟨[], [.del "k"]⟩).2 (by simp)).1,
    ((flushTick_spec 0 false ⟨[], [.del "k"]⟩).2 (by simp)).2.2⟩

/-- C4: `Get(id)` returns the `redis.Nil` not-found sentinel exactly
when the result key for `id` is absent or expired, and every underlying
error is returned to the caller unwrapped (the call is a plain
pass-through of the store read). -/
theorem get_notfound_sentinel (r : RState) (now : Int) (id : String) :
    (RGet r now id = .error NilError ↔ absentOrExpired r.store now ( resultPfx ++ id)) ∧
    RGet r now id = connGet r.store now ( resultPfx ++ id) ∧
    (∀ e, connGet r.store now ( resultPfx ++ id) = .error e → RGet r now id = .error e) := by
  refine ⟨?_, rfl, fun e h => h⟩
  cases h : findKey r.store ( resultPfx ++ id) with
  | none => simp [RGet, connGet, absentOrExpired, h, NilError]
  | some v =>
    cases v with
    | zset zs => simp [RGet, connGet, absentOrExpired, h, NilError]
    | str b dl =>
      cases dl with
      | none => simp [RGet, connGet, absentOrExpired, h, NilError]
      | some d =>
        by_cases hd : d ≤ now <;>
          simp [RGet, connGet, absentOrExpired, h, NilError, hd]

/-- Witness for C4: on the empty store, `Get` of any id returns the
not-found sentinel, and the pass-through conjunct applies to that
concrete error. -/
theorem get_notfound_sentinel_witness :
    (RGet ⟨[], []⟩ 0 "x" = .error NilError ↔
      absentOrExpired ([] : Store) 0 ( resultPfx ++ "x")) ∧
    RGet ⟨[], []⟩ 0 "x" = .error NilError :=
  ⟨(get_notfound_sentinel ⟨[], []⟩ 0 "x").1,
    (get_notfound_sentinel ⟨[], []⟩ 0 "x").2.2 NilError rfl⟩

/-- C10: result-record keys and index keys share one namespace: the
record key is the fixed prefix plus the id, the index keys are the
prefix plus the fixed suffixes, so `Set` on the ids `"success"` and
`"failed"` writes its byte payload to the very key holding the
corresponding index, clobbering it. -/
theorem resultKey_overlaps_index_key (o : Options) (now : Int) (r : RState) (b : List Nat)
    (ho : o.PipePeriod = 0) :
    ( resultPfx ++ success : String) = "tq:res:" ++ "success" ∧
    ( resultPfx ++ failed : String) = "tq:res:" ++ "failed" ∧
    findKey (RSet o now r success b).store ( resultPfx ++ success) =
      some (.str b (if o.Expiry = 0 then none else some (now + (o.Expiry : Int)))) ∧
    findKey (RSet o now r failed b).store ( resultPfx ++ failed) =
      some (.str b (if o.Expiry = 0 then none else some (now + (o.Expiry : Int)))) ∧
    successIndex (RSet o now r success b).store = [] ∧
    failedIndex (RSet o now r failed b).store = [] := by
  refine ⟨rfl, rfl, ?_, ?_, ?_, ?_⟩ <;>
    simp [RSet, ho, execCmd, findKey_setKey, successIndex, failedIndex]

/-- Witness for C10: writing a result for the job id `"success"`
overwrites the success index key with a string. -/
theorem resultKey_overlaps_index_key_witness :
    successIndex (RSet {} 0 ⟨[( resultPfx ++ success, .zset [("a", 1)])], []⟩ success [7]).store =
      [] ∧
    findKey (RSet {} 0 ⟨[( resultPfx ++ success, .zset [("a", 1)])], []⟩ success [7]).store
      ( resultPfx ++ success) = some (.str [7] none) := by
  refine ⟨(resultKey_overlaps_index_key {} 0 _ [7] rfl).2.2.2.2.1, ?_⟩
  have h := (resultKey_overlaps_index_key {} 0
    (⟨[( resultPfx ++ success, .zset [("a", 1)])], []⟩ : RState) [7] rfl).2.2.1
  simpa using h

/-! Index-projection lemmas used for the DeleteJob frame property. -/

theorem successIndex_congr {st st' : Store}
    (h : findKey st ( resultPfx ++ success) = findKey st' ( resultPfx ++ success)) :
    successIndex st = successIndex st' := by
  unfold successIndex
  rw [h]

theorem failedIndex_congr {st st' : Store}
    (h : findKey st ( resultPfx ++ failed) = findKey st' ( resultPfx ++ failed)) :
    failedIndex st = failedIndex st' := by
  unfold failedIndex
  rw [h]

theorem successKey_ne_failedKey : ( resultPfx ++ success : String) ≠ resultPfx ++ failed := by
  decide

theorem successIndex_zrem (now : Int) (st : Store) (ms : List String) :
    successIndex (execCmd now st (.zrem ( resultPfx ++ success) ms)) =
      (successIndex st).filter (fun p => p.1 ∉ ms) := by
  cases h : findKey st ( resultPfx ++ success) with
  | none => simp [successIndex, execCmd, h]
  | some v =>
    cases v with
    | zset zs => simp [successIndex, execCmd, h, findKey_setKey]
    | str b d => simp [successIndex, execCmd, h]

theorem failedIndex_zrem (now : Int) (st : Store) (ms : List String) :
    failedIndex (execCmd now st (.zrem ( resultPfx ++ failed) ms)) =
      (failedIndex st).filter (fun p => p.1 ∉ ms) := by
  cases h : findKey st ( resultPfx ++ failed) with
  | none => simp [failedIndex, execCmd, h]
  | some v =>
    cases v with
    | zset zs => simp [failedIndex, execCmd, h, findKey_setKey]
    | str b d => simp [failedIndex, execCmd, h]

theorem successIndex_zremrange (now : Int) (st : Store) (mn mx : Int) :
    successIndex (execCmd now st (.zremrange ( resultPfx ++ success) mn mx)) =
      (successIndex st).filter (fun p => ¬(mn ≤ p.2 ∧ p.2 ≤ mx)) := by
  cases h : findKey st ( resultPfx ++ success) with
  | none => simp [successIndex, execCmd, h]
  | some v =>
    cases v with
    | zset zs => simp [successIndex, execCmd, h, findKey_setKey]
    | str b d => simp [successIndex, execCmd, h]

theorem failedIndex_zremrange (now : Int) (st : Store) (mn mx : Int) :
    failedIndex (execCmd now st (.zremrange ( resultPfx ++ failed) mn mx)) =
      (failedIndex st).filter (fun p => ¬(mn ≤ p.2 ∧ p.2 ≤ mx)) := by
  cases h : findKey st ( resultPfx ++ failed) with
  | none => simp [failedIndex, execCmd, h]
  | some v =>
    cases v with
    | zset zs => simp [failedIndex, execCmd, h, findKey_setKey]
    | str b d => simp [failedIndex, execCmd, h]

/-- DeleteJob for a non-reserved id leaves the success index filtered
of exactly the two removed members `"1"` and `id`. -/
theorem successIndex_deleteJob (o : Options) (now : Int) (r : RState) (id : String)
    (hs : id ≠ success) :
    successIndex (DeleteJob o now r id).store =
      (successIndex r.store).filter (fun p => p.1 ∉ ["1", id]) := by
  have hkid : ( resultPfx ++ id : String) ≠ resultPfx ++ success := key_ne_of_id_ne hs
  show successIndex
      (execCmd now (execCmd now (execCmd now r.store (.zrem ( resultPfx ++ success) ["1", id]))
        (.zrem ( resultPfx ++ failed) ["1", id])) (.del ( resultPfx ++ id))) =
    (successIndex r.store).filter (fun p => p.1 ∉ ["1", id])
  set st1 := execCmd now r.store (.zrem ( resultPfx ++ success) ["1", id]) with hst1
  set st2 := execCmd now st1 (.zrem ( resultPfx ++ failed) ["1", id]) with hst2
  have h2 : successIndex st2 = successIndex st1 := by
    apply successIndex_congr
    refine findKey_execCmd_ne now st1 _ _ ?_ ?_ ?_ ?_ ?_
    · intro b ex h
      exact RedisCmd.noConfusion h
    · intro h
      exact RedisCmd.noConfusion h
    · intro s m h
      exact RedisCmd.noConfusion h
    · intro ms h
      injection h with h1 h2
      exact successKey_ne_failedKey h1.symm
    · intro mn mx h
      exact RedisCmd.noConfusion h
  have h3 : successIndex (execCmd now st2 (.del ( resultPfx ++ id))) = successIndex st2 := by
    apply successIndex_congr
    simp [execCmd, findKey_delKey, (Ne.symm hkid)]
  rw [h3, h2, hst1, successIndex_zrem]

/-- DeleteJob for a non-reserved id leaves the failed index filtered
of exactly the two removed members `"1"` and `id`. -/
theorem failedIndex_deleteJob (o : Options) (now : Int) (r : RState) (id : String)
    (hf : id ≠ failed) :
    failedIndex (DeleteJob o now r id).store =
      (failedIndex r.store).filter (fun p => p.1 ∉ ["1", id]) := by
  have hkid : ( resultPfx ++ id : String) ≠ resultPfx ++ failed := key_ne_of_id_ne hf
  show failedIndex
      (execCmd now (execCmd now (execCmd now r.store (.zrem ( resultPfx ++ success) ["1", id]))
        (.zrem ( resultPfx ++ failed) ["1", id])) (.del ( resultPfx ++ id))) =
    (failedIndex r.store).filter (fun p => p.1 ∉ ["1", id])
  set st1 := execCmd now r.store (.zrem ( resultPfx ++ success) ["1", id]) with hst1
  have h1 : failedIndex st1 = failedIndex r.store := by
    apply failedIndex_congr
    refine findKey_execCmd_ne now r.store _ _ ?_ ?_ ?_ ?_ ?_
    · intro b ex h
      exact RedisCmd.noConfusion h
    · intro h
      exact RedisCmd.noConfusion h
    · intro s m h
      exact RedisCmd.noConfusion h
    · intro ms h
      injection h with h1 h2
      exact successKey_ne_failedKey h1
    · intro mn mx h
      exact RedisCmd.noConfusion h
  set st2 := execCmd now st1 (.zrem ( resultPfx ++ failed) ["1", id]) with hst2
  have h3 : failedIndex (execCmd now st2 (.del ( resultPfx ++ id))) = failedIndex st2 := by
    apply failedIndex_congr
    simp [execCmd, findKey_delKey, (Ne.symm hkid)]
  rw [h3, hst2, failedIndex_zrem, h1]

/-- C1 counterexample, two independent failures.  First, the Go `ZRem`
call passes the extra argument `1`, so for the ordinary id `"x"` the
unrelated member `"1"` with score 4 is also removed from the success
index.  Second, for the id `"success"` the `DEL` of the result record
hits the success index key itself (same namespace, see C10), so the
unrelated member `"other"` with score 5 disappears wholesale. -/
theorem deleteJob_not_frame :
    (("1", (4 : Int)) ∈
        successIndex (⟨[(( resultPfx ++ success : String), .zset [("1", 4)])], []⟩ : RState).store ∧
      ("1", (4 : Int)) ∉
        successIndex (DeleteJob {} 9
          (⟨[(( resultPfx ++ success : String), .zset [("1", 4)])], []⟩ : RState)
          "x").store) ∧
    (("other", (5 : Int)) ∈
        successIndex (⟨[(( resultPfx ++ success : String), .zset [("other", 5)])], []⟩ : RState).store ∧
      ("other", (5 : Int)) ∉
        successIndex (DeleteJob {} 9
          (⟨[(( resultPfx ++ success : String), .zset [("other", 5)])], []⟩ : RState)
          "success").store) := by
  decide

/-- C1 amended: for every job identifier other than the two reserved
index suffixes `"success"` and `"failed"`, `DeleteJob(id)` removes
exactly the members `id` and `"1"` from the success and failed indexes
(the literal `"1"` because the Go `ZRem` call passes the integer `1`
as an extra member); every member other than these two keeps its entry
and score in both indexes. -/
theorem deleteJob_frame (o : Options) (now : Int) (r : RState) (id : String)
    (hs : id ≠ success) (hf : id ≠ failed) :
    (∀ m s, m ≠ id → m ≠ "1" →
      (((m, s) ∈ successIndex (DeleteJob o now r id).store) ↔
        (m, s) ∈ successIndex r.store)) ∧
    (∀ m s, m ≠ id → m ≠ "1" →
      (((m, s) ∈ failedIndex (DeleteJob o now r id).store) ↔
        (m, s) ∈ failedIndex r.store)) ∧
    (∀ s, (id, s) ∉ successIndex (DeleteJob o now r id).store) ∧
    (∀ s, (id, s) ∉ failedIndex (DeleteJob o now r id).store) ∧
    (∀ s, ("1", s) ∉ successIndex (DeleteJob o now r id).store) ∧
    (∀ s, ("1", s) ∉ failedIndex (DeleteJob o now r id).store) := by
  rw [successIndex_deleteJob o now r id hs, failedIndex_deleteJob o now r id hf]
  refine ⟨fun m s hm h1 => ?_, fun m s hm h1 => ?_, fun s => ?_, fun s => ?_,
    fun s => ?_, fun s => ?_⟩
  · simp [List.mem_filter, hm, h1]
  · simp [List.mem_filter, hm, h1]
  · simp [List.mem_filter]
  · simp [List.mem_filter]
  · simp [List.mem_filter]
  · simp [List.mem_filter]

/-- Witness for the amended C1 at a concrete two-member store. -/
theorem deleteJob_frame_witness :
    (∀ m s, m ≠ "j1" → m ≠ "1" →
      (((m, s) ∈ successIndex (DeleteJob {} 9
          (⟨[(( resultPfx ++ success : String), .zset [("j1", 3), ("j2", 4)])], []⟩ : RState)
          "j1").store) ↔
        (m, s) ∈ successIndex
          (⟨[(( resultPfx ++ success : String), .zset [("j1", 3), ("j2", 4)])], []⟩ : RState).store)) ∧
    (∀ s, ((("j1" : String), s) ∉ successIndex (DeleteJob {} 9
        (⟨[(( resultPfx ++ success : String), .zset [("j1", 3), ("j2", 4)])], []⟩ : RState)
        "j1").store)) :=
  ⟨(deleteJob_frame {} 9 _ "j1" (by decide) (by decide)).1,
    (deleteJob_frame {} 9 _ "j1" (by decide) (by decide)).2.2.1⟩

/-! Upsert lemmas for ZADD. -/

theorem zaddList_countP (zs : List (String × Int)) (m : String) (s : Int) :
    (zaddList zs m s).countP (fun p => p.1 = m) = 1 := by
  unfold zaddList
  rw [List.countP_append]
  have h0 : (zs.filter (fun p => p.1 ≠ m)).countP (fun p => p.1 = m) = 0 := by
    rw [List.countP_eq_zero]
    intro a ha
    have hmem := List.mem_filter.mp ha
    simpa using hmem.2
  rw [h0]
  simp [List.countP_cons]

theorem mem_zaddList (zs : List (String × Int)) (m : String) (s : Int) :
    (m, s) ∈ zaddList zs m s := by
  simp [zaddList]

theorem zaddList_twice (zs : List (String × Int)) (m : String) (t1 t2 : Int) :
    zaddList (zaddList zs m t1) m t2 = zaddList zs m t2 := by
  unfold zaddList
  rw [List.filter_append, List.filter_filter]
  simp

theorem successIndex_zadd (now : Int) (st : Store) (t : Int) (m : String)
    (hz : zsetTyped st ( resultPfx ++ success)) :
    successIndex (execCmd now st (.zadd ( resultPfx ++ success) t m)) =
      zaddList (successIndex st) m t := by
  cases h : findKey st ( resultPfx ++ success) with
  | none => simp [successIndex, execCmd, h, findKey_setKey]
  | some v =>
    cases v with
    | zset zs => simp [successIndex, execCmd, h, findKey_setKey]
    | str b d =>
      exfalso
      simp [zsetTyped, h] at hz

theorem zsetTyped_after_zadd (now : Int) (st : Store) (t : Int) (m : String)
    (hz : zsetTyped st ( resultPfx ++ success)) :
    zsetTyped (execCmd now st (.zadd ( resultPfx ++ success) t m)) ( resultPfx ++ success) := by
  cases h : findKey st ( resultPfx ++ success) with
  | none => simp [zsetTyped, execCmd, h, findKey_setKey]
  | some v =>
    cases v with
    | zset zs => simp [zsetTyped, execCmd, h, findKey_setKey]
    | str b d =>
      exfalso
      simp [zsetTyped, h] at hz

/-- C5: applying `SetSuccess(id)` twice upserts by member identity:
exactly one occurrence of `id` remains in the success index, carrying
the second call's timestamp, both when the writes are direct and when
they are queued and then flushed. -/
theorem setSuccess_twice_upsert (o : Options) (t1 t2 : Int) (r : RState) (id : String)
    (ho : o.PipePeriod = 0) (hz : zsetTyped r.store ( resultPfx ++ success)) :
    (successIndex (SetSuccess o t2 (SetSuccess o t1 r id) id).store).countP
        (fun p => p.1 = id) = 1 ∧
    (id, t2) ∈ successIndex (SetSuccess o t2 (SetSuccess o t1 r id) id).store ∧
    successIndex (SetSuccess o t2 (SetSuccess o t1 r id) id).store =
      (successIndex r.store).filter (fun p => p.1 ≠ id) ++ [(id, t2)] ∧
    (∀ o' : Options, o'.PipePeriod ≠ 0 → ∀ tf : Int, r.pipe = [] →
      successIndex (flushTick tf true (SetSuccess o' t2 (SetSuccess o' t1 r id) id)).store =
        (successIndex r.store).filter (fun p => p.1 ≠ id) ++ [(id, t2)]) := by
  have key : ∀ a b : Int,
      successIndex (execCmd b (execCmd a r.store (.zadd ( resultPfx ++ success) t1 id))
        (.zadd ( resultPfx ++ success) t2 id)) =
      (successIndex r.store).filter (fun p => p.1 ≠ id) ++ [(id, t2)] := by
    intro a b
    rw [successIndex_zadd b _ t2 id (zsetTyped_after_zadd a r.store t1 id hz),
      successIndex_zadd a r.store t1 id hz, zaddList_twice]
    rfl
  have hdirect : successIndex (SetSuccess o t2 (SetSuccess o t1 r id) id).store =
      (successIndex r.store).filter (fun p => p.1 ≠ id) ++ [(id, t2)] := by
    simp only [SetSuccess, ho]
    simpa using key t1 t2
  refine ⟨?_, ?_, hdirect, ?_⟩
  · rw [hdirect]
    exact zaddList_countP (successIndex r.store) id t2
  · rw [hdirect]
    exact mem_zaddList (successIndex r.store) id t2
  · intro o' ho' tf hpipe
    have hstate : SetSuccess o' t2 (SetSuccess o' t1 r id) id =
        ⟨r.store, r.pipe ++ [.zadd ( resultPfx ++ success) t1 id] ++
          [.zadd ( resultPfx ++ success) t2 id]⟩ := by
      simp [SetSuccess, ho']
    rw [hstate, hpipe]
    show successIndex (flushTick tf true ⟨r.store,
      [.zadd ( resultPfx ++ success) t1 id, .zadd ( resultPfx ++ success) t2 id]⟩).store = _
    have hred : flushTick tf true (⟨r.store,
        [.zadd ( resultPfx ++ success) t1 id, .zadd ( resultPfx ++ success) t2 id]⟩ : RState) =
        ⟨execCmds tf r.store
          [.zadd ( resultPfx ++ success) t1 id, .zadd ( resultPfx ++ success) t2 id], []⟩ := rfl
    rw [hred]
    exact key tf tf

/-- Witness for C5 at a concrete store holding an older entry for the
same id and one other member. -/
theorem setSuccess_twice_upsert_witness :
    (successIndex (SetSuccess {} 8 (SetSuccess {} 7
        (⟨[(( resultPfx ++ success : String), .zset [("j", 1), ("k", 2)])], []⟩ : RState)
        "j") "j").store).countP (fun p => p.1 = "j") = 1 ∧
    (("j" : String), (8 : Int)) ∈ successIndex (SetSuccess {} 8 (SetSuccess {} 7
        (⟨[(( resultPfx ++ success : String), .zset [("j", 1), ("k", 2)])], []⟩ : RState)
        "j") "j").store :=
  ⟨(setSuccess_twice_upsert {} 7 8 _ "j" rfl (by decide)).1,
    (setSuccess_twice_upsert {} 7 8 _ "j" rfl (by decide)).2.1⟩

/-- Reading back a freshly written string key succeeds while the
expiry deadline (computed at write-execution time `tw`) has not
passed. -/
theorem connGet_setKey_str (st : Store) (k : String) (b : List Nat) (tg tw : Int) (ex : Nat)
    (h : ex = 0 ∨ tg < tw + (ex : Int)) :
    connGet (setKey st k (.str b (if ex = 0 then none else some (tw + (ex : Int))))) tg k =
      .ok b := by
  have hk : findKey (setKey st k (.str b (if ex = 0 then none else some (tw + (ex : Int))))) k =
      some (.str b (if ex = 0 then none else some (tw + (ex : Int)))) := by
    rw [findKey_setKey]
    simp
  unfold connGet
  rw [hk]
  by_cases he : ex = 0
  · simp [he]
  · have hlt : tg < tw + (ex : Int) := by
      rcases h with h | h
      · exact absurd h he
      · exact h
    simp only [he, if_false]
    rw [if_neg (by omega)]

/-- C3: a result written by `Set(id, v)` and applied to the store —
directly when batching is disabled, or via a completed flush when it
is enabled — is returned verbatim by `Get(id)` while its expiry (if
any) has not elapsed. -/
theorem set_then_get_roundtrip (o : Options) (ts tf tg : Int) (r : RState) (id : String)
    (b : List Nat) :
    (o.PipePeriod = 0 → (o.Expiry = 0 ∨ tg < ts + (o.Expiry : Int)) →
      RGet (RSet o ts r id b) tg id = .ok b) ∧
    (o.PipePeriod ≠ 0 → r.pipe = [] → (o.Expiry = 0 ∨ tg < tf + (o.Expiry : Int)) →
      RGet (flushTick tf true (RSet o ts r id b)) tg id = .ok b) := by
  constructor
  · intro ho hexp
    have hstate : RSet o ts r id b =
        ⟨setKey r.store ( resultPfx ++ id)
          (.str b (if o.Expiry = 0 then none else some (ts + (o.Expiry : Int)))), r.pipe⟩ := by
      simp [RSet, ho, execCmd]
    rw [RGet, hstate]
    exact connGet_setKey_str r.store ( resultPfx ++ id) b tg ts o.Expiry hexp
  · intro ho hpipe hexp
    have hstate : RSet o ts r id b =
        ⟨r.store, r.pipe ++ [.set ( resultPfx ++ id) b o.Expiry]⟩ := by
      simp [RSet, ho]
    rw [hstate, hpipe]
    have hred : flushTick tf true (⟨r.store, [] ++ [.set ( resultPfx ++ id) b o.Expiry]⟩ : RState) =
        ⟨setKey r.store ( resultPfx ++ id)
          (.str b (if o.Expiry = 0 then none else some (tf + (o.Expiry : Int)))), []⟩ := rfl
    rw [hred, RGet]
    exact connGet_setKey_str r.store ( resultPfx ++ id) b tg tf o.Expiry hexp

/-- Witness for C3: a no-expiry write read back directly, and a
batched write read back after the flush. -/
theorem set_then_get_roundtrip_witness :
    RGet (RSet {} 1 ⟨[], []⟩ "job-1" [10, 20]) 2 "job-1" = .ok [10, 20] ∧
    RGet (flushTick 3 true (RSet { PipePeriod := 4 } 1 ⟨[], []⟩ "job-1" [10, 20])) 5 "job-1" =
      .ok [10, 20] :=
  ⟨(set_then_get_roundtrip {} 1 3 2 ⟨[], []⟩ "job-1" [10, 20]).1 rfl (Or.inl rfl),
    (set_then_get_roundtrip { PipePeriod := 4 } 1 3 5 ⟨[], []⟩ "job-1" [10, 20]).2
      (by decide) rfl (Or.inl rfl)⟩

/-! Range-query lemmas for ZREVRANGEBYSCORE. -/

theorem zrevLE_iff (p q : String × Int) :
    zrevLE p q = true ↔ (q.2 < p.2 ∨ (p.2 = q.2 ∧ ¬(p.1 < q.1))) := by
  simp [zrevLE]

theorem zrevLE_trans (a b c : String × Int)
    (h1 : zrevLE a b = true) (h2 : zrevLE b c = true) : zrevLE a c = true := by
  rw [zrevLE_iff] at h1 h2 ⊢
  rcases h1 with h1 | ⟨he1, hs1⟩
  · rcases h2 with h2 | ⟨he2, _⟩
    · exact Or.inl (lt_trans h2 h1)
    · exact Or.inl (by omega)
  · rcases h2 with h2 | ⟨he2, hs2⟩
    · exact Or.inl (by omega)
    · refine Or.inr ⟨by omega, fun hlt => ?_⟩
      rw [not_lt] at hs1 hs2
      exact absurd (lt_of_lt_of_le (lt_of_lt_of_le hlt hs2) hs1) (lt_irrefl a.1)

theorem zrevLE_total (a b : String × Int) :
    (zrevLE a b || zrevLE b a) = true := by
  rw [Bool.or_eq_true, zrevLE_iff, zrevLE_iff]
  rcases lt_trichotomy a.2 b.2 with h | h | h
  · exact Or.inr (Or.inl h)
  · rcases le_or_lt b.1 a.1 with hs | hs
    · exact Or.inl (Or.inr ⟨h, not_lt.mpr hs⟩)
    · exact Or.inr (Or.inr ⟨h.symm, not_lt.mpr (le_of_lt hs)⟩)
  · exact Or.inl (Or.inl h)

theorem pairwise_zrevPairs (zs : List (String × Int)) (mn mx : Int) :
    List.Pairwise (fun p q => q.2 ≤ p.2) (zrevPairs zs mn mx) := by
  have hs := List.sorted_mergeSort zrevLE_trans zrevLE_total (zrangeSelect zs mn mx)
  refine hs.imp ?_
  intro a b h
  rcases (zrevLE_iff a b).mp h with h | ⟨he, _⟩
  · exact le_of_lt h
  · exact le_of_eq he.symm

theorem mem_zrevList (zs : List (String × Int)) (mn mx : Int) (m : String) :
    m ∈ zrevList zs mn mx ↔ ∃ s, (m, s) ∈ zs ∧ mn ≤ s ∧ s ≤ mx := by
  unfold zrevList zrevPairs zrangeSelect
  rw [List.mem_map]
  constructor
  · rintro ⟨p, hp, rfl⟩
    rw [List.mem_mergeSort] at hp
    have h := List.mem_filter.mp hp
    exact ⟨p.2, h.1, of_decide_eq_true h.2⟩
  · rintro ⟨s, hmem, h1, h2⟩
    refine ⟨(m, s), ?_, rfl⟩
    rw [List.mem_mergeSort]
    exact List.mem_filter.mpr ⟨hmem, by simp [h1, h2]⟩

/-- C6: `GetSuccess` / `GetFailed` query the respective index with the
score window `[0, now]`: they return exactly the members whose score
lies in that window (future-dated entries are excluded), listed in
descending score order. -/
theorem getOutcome_window_desc (r : RState) (now : Int) :
    (∀ zs, findKey r.store ( resultPfx ++ success) = some (.zset zs) →
      GetSuccess r now = .ok (zrevList zs 0 now)) ∧
    (∀ zs, findKey r.store ( resultPfx ++ failed) = some (.zset zs) →
      GetFailed r now = .ok (zrevList zs 0 now)) ∧
    (∀ (zs : List (String × Int)) (m : String),
      m ∈ zrevList zs 0 now ↔ ∃ s, (m, s) ∈ zs ∧ 0 ≤ s ∧ s ≤ now) ∧
    (∀ zs : List (String × Int), zrevList zs 0 now = (zrevPairs zs 0 now).map Prod.fst) ∧
    (∀ zs : List (String × Int), List.Pairwise (fun p q => q.2 ≤ p.2) (zrevPairs zs 0 now)) := by
  refine ⟨?_, ?_, fun zs m => mem_zrevList zs 0 now m, fun zs => rfl,
    fun zs => pairwise_zrevPairs zs 0 now⟩
  · intro zs hz
    unfold GetSuccess connZRevRange
    rw [hz]
  · intro zs hz
    unfold GetFailed connZRevRange
    rw [hz]

/-- Witness for C6 at a store whose success index holds a past, a
present and a future-dated entry. -/
theorem getOutcome_window_desc_witness :
    GetSuccess (⟨[(( resultPfx ++ success : String),
        .zset [("a", 3), ("b", 7), ("c", 99)])], []⟩ : RState) 10 =
      .ok (zrevList [("a", 3), ("b", 7), ("c", 99)] 0 10) ∧
    (("c" : String) ∈ zrevList [("a", 3), ("b", 7), ("c", 99)] 0 10 ↔
      ∃ s, (("c" : String), s) ∈ [(("a" : String), (3 : Int)), ("b", 7), ("c", 99)] ∧
        0 ≤ s ∧ s ≤ 10) :=
  ⟨(getOutcome_window_desc _ 10).1 [("a", 3), ("b", 7), ("c", 99)] rfl,
    (getOutcome_window_desc ⟨[], []⟩ 10).2.2.1 [("a", 3), ("b", 7), ("c", 99)] "c"⟩

/-- C7: the metadata purger is started only for a non-zero retention
window, ticks with period equal to that window, and on each tick
removes every entry with score in `[0, now - window]` from the failed
index and then the success index — directly when batching is disabled,
through the shared batching queue when it is enabled. -/
theorem expireMeta_spec (o : Options) (now : Int) (r : RState) (hm : o.MetaExpiry ≠ 0) :
    purgerStarted o = true ∧
    purgerStarted { o with MetaExpiry := 0 } = false ∧
    purgerPeriod o = o.MetaExpiry ∧
    purgeCmds o.MetaExpiry now =
      [ .zremrange ( resultPfx ++ failed) 0 (now - (o.MetaExpiry : Int)),
        .zremrange ( resultPfx ++ success) 0 (now - (o.MetaExpiry : Int)) ] ∧
    (o.PipePeriod = 0 →
      successIndex (purgeTick o now r).store =
        (successIndex r.store).filter
          (fun p => ¬(0 ≤ p.2 ∧ p.2 ≤ now - (o.MetaExpiry : Int))) ∧
      failedIndex (purgeTick o now r).store =
        (failedIndex r.store).filter
          (fun p => ¬(0 ≤ p.2 ∧ p.2 ≤ now - (o.MetaExpiry : Int))) ∧
      (purgeTick o now r).pipe = r.pipe) ∧
    (o.PipePeriod ≠ 0 →
      (purgeTick o now r).store = r.store ∧
      (purgeTick o now r).pipe = r.pipe ++ purgeCmds o.MetaExpiry now) := by
  refine ⟨by simp [purgerStarted, hm], by simp [purgerStarted], rfl, rfl, ?_, ?_⟩
  · intro hp
    have hstate : purgeTick o now r =
        ⟨execCmds now r.store (purgeCmds o.MetaExpiry now), r.pipe⟩ := by
      simp [purgeTick, hp]
    rw [hstate]
    refine ⟨?_, ?_, rfl⟩
    · show successIndex
        (execCmd now (execCmd now r.store
          (.zremrange ( resultPfx ++ failed) 0 (now - (o.MetaExpiry : Int))))
          (.zremrange ( resultPfx ++ success) 0 (now - (o.MetaExpiry : Int)))) = _
      rw [successIndex_zremrange]
      congr 1
      apply successIndex_congr
      refine findKey_execCmd_ne now r.store _ _ ?_ ?_ ?_ ?_ ?_
      · intro b ex h
        exact RedisCmd.noConfusion h
      · intro h
        exact RedisCmd.noConfusion h
      · intro s m h
        exact RedisCmd.noConfusion h
      · intro m h
        exact RedisCmd.noConfusion h
      · intro mn mx h
        injection h with h1 h2
        exact successKey_ne_failedKey h1.symm
    · show failedIndex
        (execCmd now (execCmd now r.store
          (.zremrange ( resultPfx ++ failed) 0 (now - (o.MetaExpiry : Int))))
          (.zremrange ( resultPfx ++ success) 0 (now - (o.MetaExpiry : Int)))) = _
      rw [show failedIndex
          (execCmd now (execCmd now r.store
            (.zremrange ( resultPfx ++ failed) 0 (now - (o.MetaExpiry : Int))))
            (.zremrange ( resultPfx ++ success) 0 (now - (o.MetaExpiry : Int)))) =
          failedIndex (execCmd now r.store
            (.zremrange ( resultPfx ++ failed) 0 (now - (o.MetaExpiry : Int)))) from ?_,
        failedIndex_zremrange]
      apply failedIndex_congr
      refine findKey_execCmd_ne now _ _ _ ?_ ?_ ?_ ?_ ?_
      · intro b ex h
        exact RedisCmd.noConfusion h
      · intro h
        exact RedisCmd.noConfusion h
      · intro s m h
        exact RedisCmd.noConfusion h
      · intro m h
        exact RedisCmd.noConfusion h
      · intro mn mx h
        injection h with h1 h2
        exact successKey_ne_failedKey h1
  · intro hp
    constructor
    · simp [purgeTick, hp]
    · simp [purgeTick, hp]

/-- Witness for C7: a concrete tick at time 9 with window 5 purges the
scores in `[0, 4]` from both indexes and is started; with window 0 the
purger is not started. -/
theorem expireMeta_spec_witness :
    purgerStarted { MetaExpiry := 5 } = true ∧
    successIndex (purgeTick { MetaExpiry := 5 } 9
      (⟨[(( resultPfx ++ success : String), .zset [("old", 2), ("new", 8)])], []⟩ : RState)).store =
      [("new", 8)] ∧
    (purgeTick { MetaExpiry := 5, PipePeriod := 3 } 9
      (⟨[], []⟩ : RState)).pipe = purgeCmds 5 9 := by
  refine ⟨(expireMeta_spec { MetaExpiry := 5 } 9 ⟨[], []⟩ (by decide)).1, ?_, ?_⟩
  · rw [((expireMeta_spec { MetaExpiry := 5 } 9
      (⟨[(( resultPfx ++ success : String), .zset [("old", 2), ("new", 8)])], []⟩ : RState)
      (by decide)).2.2.2.2.1 rfl).1]
    decide
  · rw [((expireMeta_spec { MetaExpiry := 5, PipePeriod := 3 } 9 ⟨[], []⟩
      (by decide)).2.2.2.2.2 (by decide)).2]
    rfl

end Tasqueue
